import Mathlib

/-!
Shallow embedding of the `ndinterp` library (grid bracket search, slice
derivatives, scattered-point container) with proofs about its behaviour.

Rust `f64` values are modelled as rationals (`ℚ`); machine indices as `ℕ`.
A `usize` subtraction that would underflow is modelled explicitly as a
`panic` outcome (Rust debug builds abort there).
-/

namespace Ndinterp

/-- The error type of `interpolate::InterpolationError` (the two extrapolation
variants used by `Grid::closest_below`); each carries the offending query
coordinate. -/
inductive InterpolationError where
  | extrapolationAbove (q : ℚ)
  | extrapolationBelow (q : ℚ)
deriving DecidableEq, Repr

/-- Outcome of one axis of the `closest_below` loop: a bracket index, an
extrapolation error, or a panic (the `u_idx - 1` underflow or
`last().unwrap()` on an empty axis). -/
inductive AxisResult where
  | ok (idx : ℕ)
  | err (e : InterpolationError)
  | panic
deriving DecidableEq, Repr

/-- Outcome of `Grid::closest_below`: `Ok` with the per-axis bracket indices,
`Err` with an `InterpolationError`, or a panic. -/
inductive ClosestBelowResult where
  | ok (idxs : List ℕ)
  | err (e : InterpolationError)
  | panic
deriving DecidableEq, Repr

/-- Model of a rank-D `ndarray` value tensor (`Grid.values`): a shape together
with the flattened data.  `closest_below` never reads it. -/
structure NdArray where
  shape : List ℕ
  data : List ℚ
deriving DecidableEq, Repr

/-- The `Grid` struct of `grid.rs`: the input vectors `xgrid` (one sorted
vector per axis) and the value tensor. -/
structure Grid where
  xgrid : List (List ℚ)
  values : NdArray
deriving DecidableEq, Repr

/-- Rust's `slice::partition_point(|x| x < &query)`: the index of the
partition point, i.e. the length of the initial run of elements satisfying
the predicate (this is what the standard-library binary search returns on a
slice that is partitioned by the predicate, as a sorted axis is). -/
def partition_point (igrid : List ℚ) (query : ℚ) : ℕ :=
  match igrid with
  | [] => 0
  | x :: rest => if x < query then partition_point rest query + 1 else 0

/-- One iteration of the `closest_below` loop body for axis `igrid` and the
matching query coordinate: the `query > last` check, then `query < igrid[0]`,
then `partition_point` and the `u_idx - 1` decrement (underflowing to a panic
when `u_idx == 0`). -/
def closest_below_axis (igrid : List ℚ) (query : ℚ) : AxisResult :=
  match igrid with
  | [] => AxisResult.panic
  | _ :: _ =>
    if igrid.getLastD 0 < query then
      AxisResult.err (InterpolationError.extrapolationAbove query)
    else if query < igrid.headD 0 then
      AxisResult.err (InterpolationError.extrapolationBelow query)
    else
      let u := partition_point igrid query
      if u = 0 then AxisResult.panic
      else AxisResult.ok (u - 1)

/-- The `closest_below` loop over the zipped (query coordinate, axis) pairs,
in axis order; the first axis to fail short-circuits the loop. -/
def closest_below_go : List (ℚ × List ℚ) → ClosestBelowResult
  | [] => ClosestBelowResult.ok []
  | (query, igrid) :: rest =>
    match closest_below_axis igrid query with
    | AxisResult.err e => ClosestBelowResult.err e
    | AxisResult.panic => ClosestBelowResult.panic
    | AxisResult.ok idx =>
      match closest_below_go rest with
      | ClosestBelowResult.ok idxs => ClosestBelowResult.ok (idx :: idxs)
      | r => r

/-- `Grid::closest_below`: for each axis, the index of the last grid value
strictly below the query coordinate, or an extrapolation error.  `izip!`
iterates the query and the axes in lockstep, so the pairs are the zip of the
two lists. -/
def Grid.closest_below (g : Grid) (input_query : List ℚ) : ClosestBelowResult :=
  closest_below_go (input_query.zip g.xgrid)

/-- The `GridSlice` struct: one axis `x` and the matching 1-dimensional view
`y` of the values. -/
structure GridSlice where
  x : List ℚ
  y : List ℚ
deriving DecidableEq, Repr

/-- `GridSlice::derivative_at`: the backward difference ratio
`(y[index] - y[index-1]) / (x[index] - x[index-1])`. -/
def GridSlice.derivative_at (s : GridSlice) (index : ℕ) : ℚ :=
  let dx := s.x.getD index 0 - s.x.getD (index - 1) 0
  let dy := s.y.getD index 0 - s.y.getD (index - 1) 0
  dy / dx

/-- `GridSlice::central_derivative_at`: the average
`0.5 * (derivative_at (index+1) + derivative_at index)` of the forward and
backward differences. -/
def GridSlice.central_derivative_at (s : GridSlice) (index : ℕ) : ℚ :=
  let dy_f := s.derivative_at (index + 1)
  let dy_b := s.derivative_at index
  (1 / 2) * (dy_f + dy_b)

/-- Strictly ascending coordinates, the documented invariant of every grid
axis. -/
abbrev StrictlyAscending (xs : List ℚ) : Prop := List.Pairwise (· < ·) xs

/-- Index `idx` is the greatest index whose axis value is strictly below `q`
(the specified postcondition of the per-axis search). -/
def GreatestBelow (ax : List ℚ) (q : ℚ) (idx : ℕ) : Prop :=
  idx < ax.length ∧ ax.getD idx 0 < q ∧
    ∀ j, j < ax.length → ax.getD j 0 < q → j ≤ idx

instance (ax : List ℚ) (q : ℚ) (idx : ℕ) : Decidable (GreatestBelow ax q idx) := by
  unfold GreatestBelow
  infer_instance

/-- The `Input` struct of `interpolate.rs` (only its two fields are visible
from `src/`: a point and its value). -/
structure Input (Point : Type) where
  point : Point
  value : ℚ

/-- The `Commons` struct of `scatter/commons.rs`: the scattered points (the
`Rc` shared-ownership wrapper is modelled as the point itself), the parallel
values, and the optional nearest-neighbour finder. -/
structure Commons (Point Finder : Type) where
  points : List Point
  values : List ℚ
  finder : Option Finder

/-- `Commons::new`: split the inputs into the value sequence and the
(`Rc`-wrapped) point sequence; no finder yet. -/
def Commons.new {Point Finder : Type} (inputs : List (Input Point)) :
    Commons Point Finder where
  points := inputs.map (fun i => i.point)
  values := inputs.map (fun i => i.value)
  finder := none

/-- `Commons::set_finder`: install the finder, leaving the other fields as
they are. -/
def Commons.set_finder {Point Finder : Type} (c : Commons Point Finder)
    (finder : Finder) : Commons Point Finder :=
  { c with finder := some finder }

/-- `split_2d`: the last entry of each row becomes a value, the row without
its last column (`s![.., ..-1]`) becomes a point. -/
def split_2d (points : List (List ℚ)) : List (List ℚ) × List ℚ :=
  let values := points.map (fun ar => ar.getD (ar.length - 1) 0)
  let pts := points.map (fun ar => ar.dropLast)
  (pts, values)

/-- Modelled from the spec: `Input::stack` lives in `interpolate.rs`, which is
not among the source files; per §4.6 `from(table)` pairs each row's
coordinates with that row's value, so `stack` zips the parallel point and
value sequences into `(point, value)` input pairs. -/
def Input.stack {Point : Type} (points : List Point) (values : List ℚ) :
    List (Input Point) :=
  (points.zip values).map (fun pv => { point := pv.1, value := pv.2 })

/-- The `From<Array2<f64>>` conversion for `Commons`: split the 2-D table and
feed the stacked inputs to `Commons::new`. -/
def Commons.«from» {Finder : Type} (inputs : List (List ℚ)) :
    Commons (List ℚ) Finder :=
  let pv := split_2d inputs
  Commons.new (Input.stack pv.1 pv.2)

/-- A query coordinate is in range for an axis when it is strictly above the
first node and at most the last node. -/
def InRange (ax : List ℚ) (q : ℚ) : Prop :=
  ax.headD 0 < q ∧ q ≤ ax.getLastD 0

instance (ax : List ℚ) (q : ℚ) : Decidable (InRange ax q) := by
  unfold InRange
  infer_instance

lemma ne_nil_of_inRange {ax : List ℚ} {q : ℚ} (h : InRange ax q) : ax ≠ [] := by
  intro hnil
  subst hnil
  obtain ⟨hlo, hhi⟩ := h
  simp only [List.headD_nil, List.getLastD_nil] at hlo hhi
  exact absurd (lt_of_lt_of_le hlo hhi) (lt_irrefl 0)

lemma partition_point_le_length (ax : List ℚ) (q : ℚ) :
    partition_point ax q ≤ ax.length := by
  induction ax with
  | nil => simp [partition_point]
  | cons x rest ih =>
    simp only [partition_point, List.length_cons]
    split
    · omega
    · omega

lemma getD_lt_of_lt_partition_point (ax : List ℚ) (q : ℚ) :
    ∀ j, j < partition_point ax q → ax.getD j 0 < q := by
  induction ax with
  | nil => intro j hj; simp [partition_point] at hj
  | cons x rest ih =>
    intro j hj
    simp only [partition_point] at hj
    by_cases hx : x < q
    · rw [if_pos hx] at hj
      cases j with
      | zero => simpa using hx
      | succ j => simpa using ih j (by omega)
    · rw [if_neg hx] at hj
      omega

lemma not_lt_of_partition_point_lt (ax : List ℚ) (q : ℚ)
    (h : partition_point ax q < ax.length) :
    ¬ ax.getD (partition_point ax q) 0 < q := by
  induction ax with
  | nil => simp at h
  | cons x rest ih =>
    by_cases hx : x < q
    · have hrw : partition_point (x :: rest) q = partition_point rest q + 1 := by
        simp [partition_point, hx]
      rw [hrw] at h ⊢
      rw [List.getD_cons_succ]
      exact ih (by simpa using h)
    · have hrw : partition_point (x :: rest) q = 0 := by
        simp [partition_point, hx]
      rw [hrw, List.getD_cons_zero]
      exact hx

lemma getD_le_getD_of_sorted (ax : List ℚ) (hasc : StrictlyAscending ax)
    {i j : ℕ} (hij : i ≤ j) (hj : j < ax.length) :
    ax.getD i 0 ≤ ax.getD j 0 := by
  rcases eq_or_lt_of_le hij with rfl | hlt
  · exact le_refl _
  · have hi : i < ax.length := lt_trans hlt hj
    rw [List.getD_eq_getElem _ _ hi, List.getD_eq_getElem _ _ hj]
    exact le_of_lt (List.pairwise_iff_getElem.mp hasc i j hi hj hlt)

lemma getD_lt_getD_of_sorted (ax : List ℚ) (hasc : StrictlyAscending ax)
    {i j : ℕ} (hij : i < j) (hj : j < ax.length) :
    ax.getD i 0 < ax.getD j 0 := by
  have hi : i < ax.length := lt_trans hij hj
  rw [List.getD_eq_getElem _ _ hi, List.getD_eq_getElem _ _ hj]
  exact List.pairwise_iff_getElem.mp hasc i j hi hj hij

lemma lt_partition_point_of_getD_lt (ax : List ℚ) (q : ℚ)
    (hasc : StrictlyAscending ax) (j : ℕ) (hj : j < ax.length)
    (h : ax.getD j 0 < q) :
    j < partition_point ax q := by
  by_contra hle
  push_neg at hle
  have hplen : partition_point ax q < ax.length := lt_of_le_of_lt hle hj
  have hstop := not_lt_of_partition_point_lt ax q hplen
  exact hstop (lt_of_le_of_lt (getD_le_getD_of_sorted ax hasc hle hj) h)

lemma partition_point_pos {ax : List ℚ} {q : ℚ} (hne : ax ≠ [])
    (hlo : ax.headD 0 < q) :
    0 < partition_point ax q := by
  cases ax with
  | nil => exact absurd rfl hne
  | cons x rest =>
    simp only [List.headD_cons] at hlo
    simp [partition_point, hlo]

lemma getLastD_eq_getD : ∀ (ax : List ℚ) (d : ℚ), ax ≠ [] →
    ax.getLastD d = ax.getD (ax.length - 1) 0
  | [], _, hne => absurd rfl hne
  | [x], d, _ => by simp
  | x :: y :: t, d, _ => by
    rw [List.getLastD_cons, getLastD_eq_getD (y :: t) x (by simp)]
    simp

lemma headD_eq_getD {ax : List ℚ} (hne : ax ≠ []) : ax.headD 0 = ax.getD 0 0 := by
  cases ax with
  | nil => exact absurd rfl hne
  | cons x rest => simp

lemma headD_le_getLastD {ax : List ℚ} (hasc : StrictlyAscending ax)
    (hne : ax ≠ []) :
    ax.headD 0 ≤ ax.getLastD 0 := by
  have h0 : 0 < ax.length := List.length_pos.mpr hne
  rw [headD_eq_getD hne, getLastD_eq_getD ax 0 hne]
  exact getD_le_getD_of_sorted ax hasc (by omega) (by omega)

lemma greatestBelow_partition_point {ax : List ℚ} {q : ℚ}
    (hasc : StrictlyAscending ax) (hin : InRange ax q) :
    GreatestBelow ax q (partition_point ax q - 1) := by
  have hne := ne_nil_of_inRange hin
  have hpos : 0 < partition_point ax q := partition_point_pos hne hin.1
  have hle : partition_point ax q ≤ ax.length := partition_point_le_length ax q
  have hlen : 0 < ax.length := List.length_pos.mpr hne
  refine ⟨by omega, ?_, ?_⟩
  · exact getD_lt_of_lt_partition_point ax q _ (by omega)
  · intro j hj hlt
    have := lt_partition_point_of_getD_lt ax q hasc j hj hlt
    omega

lemma closest_below_axis_in_range {ax : List ℚ} {q : ℚ} (hin : InRange ax q) :
    closest_below_axis ax q = AxisResult.ok (partition_point ax q - 1) := by
  have hne := ne_nil_of_inRange hin
  obtain ⟨hlo, hhi⟩ := hin
  cases ax with
  | nil => exact absurd rfl hne
  | cons x rest =>
    have hpos : ¬ partition_point (x :: rest) q = 0 := by
      have := partition_point_pos (by simp) hlo
      omega
    simp only [closest_below_axis]
    rw [if_neg (not_lt.mpr hhi), if_neg (not_lt.mpr (le_of_lt hlo)), if_neg hpos]

lemma closest_below_axis_above {ax : List ℚ} {q : ℚ} (hne : ax ≠ [])
    (h : ax.getLastD 0 < q) :
    closest_below_axis ax q =
      AxisResult.err (InterpolationError.extrapolationAbove q) := by
  cases ax with
  | nil => exact absurd rfl hne
  | cons x rest =>
    simp only [closest_below_axis]
    rw [if_pos h]

lemma closest_below_axis_below {ax : List ℚ} {q : ℚ}
    (hasc : StrictlyAscending ax) (hne : ax ≠ []) (h : q < ax.headD 0) :
    closest_below_axis ax q =
      AxisResult.err (InterpolationError.extrapolationBelow q) := by
  have hle := headD_le_getLastD hasc hne
  cases ax with
  | nil => exact absurd rfl hne
  | cons x rest =>
    simp only [closest_below_axis]
    rw [if_neg (not_lt.mpr (le_trans (le_of_lt h) hle)), if_pos h]

lemma closest_below_go_ok (pairs : List (ℚ × List ℚ))
    (h : ∀ j, j < pairs.length → InRange (pairs.getD j (0, [])).2 (pairs.getD j (0, [])).1) :
    closest_below_go pairs =
      ClosestBelowResult.ok (pairs.map (fun p => partition_point p.2 p.1 - 1)) := by
  induction pairs with
  | nil => rfl
  | cons p rest ih =>
    obtain ⟨q, ax⟩ := p
    have h0 := h 0 (by simp)
    simp only [List.getD_cons_zero] at h0
    have hrest := ih (fun j hj => by simpa using h (j + 1) (by simpa using hj))
    simp only [closest_below_go, closest_below_axis_in_range h0, hrest, List.map_cons]

lemma closest_below_go_err (pairs : List (ℚ × List ℚ)) (i : ℕ)
    (e : InterpolationError) (hi : i < pairs.length)
    (hbefore : ∀ j, j < i → InRange (pairs.getD j (0, [])).2 (pairs.getD j (0, [])).1)
    (herr : closest_below_axis (pairs.getD i (0, [])).2 (pairs.getD i (0, [])).1 =
      AxisResult.err e) :
    closest_below_go pairs = ClosestBelowResult.err e := by
  induction pairs generalizing i with
  | nil => simp at hi
  | cons p rest ih =>
    obtain ⟨q, ax⟩ := p
    cases i with
    | zero =>
      simp only [List.getD_cons_zero] at herr
      simp only [closest_below_go, herr]
    | succ i =>
      have h0 := hbefore 0 (by omega)
      simp only [List.getD_cons_zero] at h0
      have hrest := ih i (by simpa using hi)
        (fun j hj => by simpa using hbefore (j + 1) (by omega))
        (by simpa using herr)
      simp only [closest_below_go, closest_below_axis_in_range h0, hrest]

lemma zip_getD (q : List ℚ) (xg : List (List ℚ)) (j : ℕ)
    (hq : j < q.length) (hx : j < xg.length) :
    (q.zip xg).getD j (0, []) = (q.getD j 0, xg.getD j []) := by
  have hz : j < (q.zip xg).length := by
    rw [List.length_zip]
    omega
  rw [List.getD_eq_getElem _ _ hz, List.getD_eq_getElem _ _ hq,
    List.getD_eq_getElem _ _ hx, List.getElem_zip]

lemma getD_mem_of_lt {xg : List (List ℚ)} {i : ℕ} (hi : i < xg.length) :
    xg.getD i [] ∈ xg := by
  rw [List.getD_eq_getElem _ _ hi]
  exact List.getElem_mem hi

/-- C1: code bug.  At a query exactly equal to the first axis node
(`axis[0] = 0` here), neither extrapolation branch fires, `partition_point`
returns 0, and the `u_idx - 1` decrement underflows `usize` (a panic in a
debug build) instead of returning `ExtrapolationBelow`. -/
theorem c1_query_at_first_node_underflows :
    Grid.closest_below ⟨[[0, 1, 2, 3, 4]], ⟨[5], [4, 3, 2, 1, 1]⟩⟩ [0] =
      ClosestBelowResult.panic := by decide

/-- C2: on a grid with strictly ascending axes and a query strictly above the
first node and at most the last node of every axis, `closest_below` returns
`Ok` of an index list that holds, for each axis, the greatest index whose
node is strictly below the query coordinate. -/
theorem c2_closest_below_greatest_index
    (xgrid : List (List ℚ)) (v : NdArray) (q : List ℚ)
    (hlen : q.length = xgrid.length)
    (hasc : ∀ ax ∈ xgrid, StrictlyAscending ax)
    (hin : ∀ i, i < xgrid.length → InRange (xgrid.getD i []) (q.getD i 0)) :
    ∃ idxs, Grid.closest_below ⟨xgrid, v⟩ q = ClosestBelowResult.ok idxs ∧
      idxs.length = xgrid.length ∧
      ∀ i, i < xgrid.length →
        GreatestBelow (xgrid.getD i []) (q.getD i 0) (idxs.getD i 0) := by
  have hzlen : (q.zip xgrid).length = xgrid.length := by
    rw [List.length_zip, hlen]
    exact min_self _
  have hpairs : ∀ j, j < (q.zip xgrid).length →
      InRange ((q.zip xgrid).getD j (0, [])).2 ((q.zip xgrid).getD j (0, [])).1 := by
    intro j hj
    rw [hzlen] at hj
    rw [zip_getD q xgrid j (by omega) hj]
    exact hin j hj
  refine ⟨(q.zip xgrid).map (fun p => partition_point p.2 p.1 - 1), ?_, ?_, ?_⟩
  · exact closest_below_go_ok _ hpairs
  · rw [List.length_map, hzlen]
  · intro i hi
    have hzi : i < (q.zip xgrid).length := by
      rw [hzlen]
      exact hi
    have hmap : ((q.zip xgrid).map (fun p => partition_point p.2 p.1 - 1)).getD i 0
        = partition_point (xgrid.getD i []) (q.getD i 0) - 1 := by
      rw [List.getD_eq_getElem _ _ (by rw [List.length_map]; exact hzi),
        List.getElem_map]
      have hz := zip_getD q xgrid i (by omega) hi
      rw [List.getD_eq_getElem _ _ hzi] at hz
      rw [hz]
    rw [hmap]
    exact greatestBelow_partition_point (hasc _ (getD_mem_of_lt hi)) (hin i hi)

/-- Witness for C2 on the repository's test grid with the interior query 3:
the greatest index with node strictly below 3 is 2. -/
theorem c2_closest_below_greatest_index_witness :
    ∃ idxs,
      Grid.closest_below ⟨[[0, 1, 2, 3, 4]], ⟨[5], [4, 3, 2, 1, 1]⟩⟩ [3] =
        ClosestBelowResult.ok idxs ∧
      idxs.length = [[(0 : ℚ), 1, 2, 3, 4]].length ∧
      ∀ i, i < [[(0 : ℚ), 1, 2, 3, 4]].length →
        GreatestBelow ([[(0 : ℚ), 1, 2, 3, 4]].getD i []) ([(3 : ℚ)].getD i 0)
          (idxs.getD i 0) :=
  c2_closest_below_greatest_index [[0, 1, 2, 3, 4]] ⟨[5], [4, 3, 2, 1, 1]⟩ [3]
    (by decide) (by decide) (by decide)

/-- C3: with every earlier axis in range, a query coordinate strictly below
the first node yields `Err (ExtrapolationBelow q)`, and one strictly above
the last node yields `Err (ExtrapolationAbove q)`; in both cases the error
carries exactly the offending query coordinate, with no clamping. -/
theorem c3_closest_below_error_kinds
    (xgrid : List (List ℚ)) (v : NdArray) (q : List ℚ) (i : ℕ)
    (hiq : i < q.length) (hix : i < xgrid.length)
    (hasc : ∀ ax ∈ xgrid, StrictlyAscending ax)
    (hne : xgrid.getD i [] ≠ [])
    (hbefore : ∀ j, j < i → InRange (xgrid.getD j []) (q.getD j 0)) :
    (q.getD i 0 < (xgrid.getD i []).headD 0 →
      Grid.closest_below ⟨xgrid, v⟩ q =
        ClosestBelowResult.err
          (InterpolationError.extrapolationBelow (q.getD i 0))) ∧
    ((xgrid.getD i []).getLastD 0 < q.getD i 0 →
      Grid.closest_below ⟨xgrid, v⟩ q =
        ClosestBelowResult.err
          (InterpolationError.extrapolationAbove (q.getD i 0))) := by
  have hbefore' : ∀ j, j < i →
      InRange ((q.zip xgrid).getD j (0, [])).2 ((q.zip xgrid).getD j (0, [])).1 := by
    intro j hj
    rw [zip_getD q xgrid j (by omega) (by omega)]
    exact hbefore j hj
  have hilen : i < (q.zip xgrid).length := by
    rw [List.length_zip]
    omega
  constructor
  · intro h
    apply closest_below_go_err _ i _ hilen hbefore'
    rw [zip_getD q xgrid i hiq hix]
    exact closest_below_axis_below (hasc _ (getD_mem_of_lt hix)) hne h
  · intro h
    apply closest_below_go_err _ i _ hilen hbefore'
    rw [zip_getD q xgrid i hiq hix]
    exact closest_below_axis_above hne h

/-- Witness for C3 on a two-axis grid whose first axis sees the
out-of-range coordinate -1: the error is `ExtrapolationBelow (-1)`. -/
theorem c3_closest_below_error_kinds_witness :
    ((-1 : ℚ) < ([[(0 : ℚ), 1, 2], [0, 1, 2]].getD 0 []).headD 0 →
      Grid.closest_below ⟨[[0, 1, 2], [0, 1, 2]], ⟨[3, 3], [0, 0, 0, 0, 0, 0, 0, 0, 0]⟩⟩
          [-1, 1] =
        ClosestBelowResult.err (InterpolationError.extrapolationBelow (-1))) ∧
    (([[(0 : ℚ), 1, 2], [0, 1, 2]].getD 0 []).getLastD 0 < (-1 : ℚ) →
      Grid.closest_below ⟨[[0, 1, 2], [0, 1, 2]], ⟨[3, 3], [0, 0, 0, 0, 0, 0, 0, 0, 0]⟩⟩
          [-1, 1] =
        ClosestBelowResult.err (InterpolationError.extrapolationAbove (-1))) :=
  c3_closest_below_error_kinds [[0, 1, 2], [0, 1, 2]]
    ⟨[3, 3], [0, 0, 0, 0, 0, 0, 0, 0, 0]⟩ [-1, 1] 0
    (by decide) (by decide) (by decide) (by decide) (by decide)

lemma partition_point_getLastD {ax : List ℚ} (hasc : StrictlyAscending ax)
    (h2 : 2 ≤ ax.length) :
    partition_point ax (ax.getLastD 0) = ax.length - 1 := by
  have hne : ax ≠ [] := by
    intro h
    subst h
    simp at h2
  have hle := partition_point_le_length ax (ax.getLastD 0)
  have hub : partition_point ax (ax.getLastD 0) ≤ ax.length - 1 := by
    by_contra hgt
    push_neg at hgt
    have hlt := getD_lt_of_lt_partition_point ax (ax.getLastD 0)
      (ax.length - 1) (by omega)
    rw [getLastD_eq_getD ax 0 hne] at hlt
    exact absurd hlt (lt_irrefl _)
  have hlb : ax.length - 2 < partition_point ax (ax.getLastD 0) := by
    apply lt_partition_point_of_getD_lt ax _ hasc _ (by omega)
    rw [getLastD_eq_getD ax 0 hne]
    exact getD_lt_getD_of_sorted ax hasc (by omega) (by omega)
  omega

/-- C6: a query coordinate exactly equal to an axis's last node (the axis
holding at least two strictly ascending nodes) is treated as in range: with
every axis in range, `closest_below` succeeds and that axis's returned index
is `len - 2`, the bracket immediately below the last node. -/
theorem c6_query_at_last_node_ok
    (xgrid : List (List ℚ)) (v : NdArray) (q : List ℚ)
    (hlen : q.length = xgrid.length)
    (hasc : ∀ ax ∈ xgrid, StrictlyAscending ax)
    (hin : ∀ i, i < xgrid.length → InRange (xgrid.getD i []) (q.getD i 0))
    (i : ℕ) (hi : i < xgrid.length)
    (h2 : 2 ≤ (xgrid.getD i []).length)
    (hlast : q.getD i 0 = (xgrid.getD i []).getLastD 0) :
    ∃ idxs, Grid.closest_below ⟨xgrid, v⟩ q = ClosestBelowResult.ok idxs ∧
      idxs.getD i 0 = (xgrid.getD i []).length - 2 := by
  have hzlen : (q.zip xgrid).length = xgrid.length := by
    rw [List.length_zip, hlen]
    exact min_self _
  have hpairs : ∀ j, j < (q.zip xgrid).length →
      InRange ((q.zip xgrid).getD j (0, [])).2 ((q.zip xgrid).getD j (0, [])).1 := by
    intro j hj
    rw [hzlen] at hj
    rw [zip_getD q xgrid j (by omega) hj]
    exact hin j hj
  refine ⟨(q.zip xgrid).map (fun p => partition_point p.2 p.1 - 1), ?_, ?_⟩
  · exact closest_below_go_ok _ hpairs
  · have hzi : i < (q.zip xgrid).length := by
      rw [hzlen]
      exact hi
    rw [List.getD_eq_getElem _ _ (by rw [List.length_map]; exact hzi),
      List.getElem_map]
    have hz := zip_getD q xgrid i (by omega) hi
    rw [List.getD_eq_getElem _ _ hzi] at hz
    rw [hz]
    simp only
    rw [hlast, partition_point_getLastD (hasc _ (getD_mem_of_lt hi)) h2]
    omega

/-- Witness for C6: query 4 equals the last node of the five-node test axis,
and the returned index is 3 = 5 - 2. -/
theorem c6_query_at_last_node_ok_witness :
    ∃ idxs,
      Grid.closest_below ⟨[[0, 1, 2, 3, 4]], ⟨[5], [4, 3, 2, 1, 1]⟩⟩ [4] =
        ClosestBelowResult.ok idxs ∧
      idxs.getD 0 0 = ([[(0 : ℚ), 1, 2, 3, 4]].getD 0 []).length - 2 :=
  c6_query_at_last_node_ok [[0, 1, 2, 3, 4]] ⟨[5], [4, 3, 2, 1, 1]⟩ [4]
    (by decide) (by decide) (by decide) 0 (by decide) (by decide) (by decide)

/-- C7: when the query is out of range on more than one axis, the reported
error is the one of the lowest-numbered failing axis: with every axis before
`i` in range and axis `i` failing, the result is determined by axis `i`
alone, whatever the later axes hold. -/
theorem c7_first_failing_axis_wins
    (xgrid : List (List ℚ)) (v : NdArray) (q : List ℚ) (i : ℕ)
    (hiq : i < q.length) (hix : i < xgrid.length)
    (hasc : ∀ ax ∈ xgrid, StrictlyAscending ax)
    (hne : xgrid.getD i [] ≠ [])
    (hbefore : ∀ j, j < i → InRange (xgrid.getD j []) (q.getD j 0))
    (hfail : q.getD i 0 < (xgrid.getD i []).headD 0 ∨
      (xgrid.getD i []).getLastD 0 < q.getD i 0) :
    Grid.closest_below ⟨xgrid, v⟩ q =
      ClosestBelowResult.err
        (if (xgrid.getD i []).getLastD 0 < q.getD i 0 then
          InterpolationError.extrapolationAbove (q.getD i 0)
        else InterpolationError.extrapolationBelow (q.getD i 0)) := by
  have hbefore' : ∀ j, j < i →
      InRange ((q.zip xgrid).getD j (0, [])).2 ((q.zip xgrid).getD j (0, [])).1 := by
    intro j hj
    rw [zip_getD q xgrid j (by omega) (by omega)]
    exact hbefore j hj
  have hilen : i < (q.zip xgrid).length := by
    rw [List.length_zip]
    omega
  by_cases habove : (xgrid.getD i []).getLastD 0 < q.getD i 0
  · rw [if_pos habove]
    apply closest_below_go_err _ i _ hilen hbefore'
    rw [zip_getD q xgrid i hiq hix]
    exact closest_below_axis_above hne habove
  · rw [if_neg habove]
    have hbelow : q.getD i 0 < (xgrid.getD i []).headD 0 := by
      rcases hfail with h | h
      · exact h
      · exact absurd h habove
    apply closest_below_go_err _ i _ hilen hbefore'
    rw [zip_getD q xgrid i hiq hix]
    exact closest_below_axis_below (hasc _ (getD_mem_of_lt hix)) hne hbelow

/-- Witness for C7: both axes are out of range (5 above on axis 0, -3 below
on axis 1); the reported error is axis 0's `ExtrapolationAbove 5`. -/
theorem c7_first_failing_axis_wins_witness :
    Grid.closest_below ⟨[[0, 1], [0, 1]], ⟨[2, 2], [0, 0, 0, 0]⟩⟩ [5, -3] =
      ClosestBelowResult.err
        (if ([[(0 : ℚ), 1], [0, 1]].getD 0 []).getLastD 0 < ([(5 : ℚ), -3].getD 0 0) then
          InterpolationError.extrapolationAbove ([(5 : ℚ), -3].getD 0 0)
        else InterpolationError.extrapolationBelow ([(5 : ℚ), -3].getD 0 0)) :=
  c7_first_failing_axis_wins [[0, 1], [0, 1]] ⟨[2, 2], [0, 0, 0, 0]⟩ [5, -3] 0
    (by decide) (by decide) (by decide) (by decide) (by decide) (by decide)

/-- C4: for a slice with coordinates `x` and values `y`, the one-sided
derivative at `i ≥ 1` is `(y[i] - y[i-1]) / (x[i] - x[i-1])`, and the central
derivative at an interior index is the average of the one-sided derivatives
at `i` and `i + 1`. -/
theorem c4_derivative_formulas (s : GridSlice) (i : ℕ) (h1 : 1 ≤ i)
    (hx : i + 1 < s.x.length) (hy : i + 1 < s.y.length) :
    s.derivative_at i =
      (s.y.getD i 0 - s.y.getD (i - 1) 0) / (s.x.getD i 0 - s.x.getD (i - 1) 0) ∧
    s.central_derivative_at i =
      (s.derivative_at i + s.derivative_at (i + 1)) / 2 := by
  constructor
  · rfl
  · simp only [GridSlice.central_derivative_at]
    ring

/-- Witness for C4 at the repository's test slice and index 1. -/
theorem c4_derivative_formulas_witness :
    GridSlice.derivative_at ⟨[0, 1, 2, 3, 4], [4, 3, 2, 1, 1]⟩ 1 =
      (([(4 : ℚ), 3, 2, 1, 1].getD 1 0 - [(4 : ℚ), 3, 2, 1, 1].getD 0 0) /
        ([(0 : ℚ), 1, 2, 3, 4].getD 1 0 - [(0 : ℚ), 1, 2, 3, 4].getD 0 0)) ∧
    GridSlice.central_derivative_at ⟨[0, 1, 2, 3, 4], [4, 3, 2, 1, 1]⟩ 1 =
      (GridSlice.derivative_at ⟨[0, 1, 2, 3, 4], [4, 3, 2, 1, 1]⟩ 1 +
        GridSlice.derivative_at ⟨[0, 1, 2, 3, 4], [4, 3, 2, 1, 1]⟩ 2) / 2 :=
  c4_derivative_formulas ⟨[0, 1, 2, 3, 4], [4, 3, 2, 1, 1]⟩ 1
    (by decide) (by decide) (by decide)

/-- C8: on coordinates evenly spaced with step `dx`, the central derivative
at every interior index equals the classic centered difference
`(y[i+1] - y[i-1]) / (2 * dx)`. -/
theorem c8_central_derivative_even_spacing (s : GridSlice) (dx : ℚ)
    (hdx : 0 < dx)
    (heven : ∀ j, j + 1 < s.x.length → s.x.getD (j + 1) 0 - s.x.getD j 0 = dx)
    (i : ℕ) (h1 : 1 ≤ i) (hi : i + 1 < s.x.length) :
    s.central_derivative_at i =
      (s.y.getD (i + 1) 0 - s.y.getD (i - 1) 0) / (2 * dx) := by
  have hdx' : dx ≠ 0 := ne_of_gt hdx
  have hb : s.x.getD i 0 - s.x.getD (i - 1) 0 = dx := by
    have h := heven (i - 1) (by omega)
    have hrw : i - 1 + 1 = i := by omega
    rwa [hrw] at h
  have hf : s.x.getD (i + 1) 0 - s.x.getD i 0 = dx := heven i (by omega)
  simp only [GridSlice.central_derivative_at, GridSlice.derivative_at,
    Nat.add_sub_cancel]
  rw [hb, hf]
  field_simp

/-- Witness for C8 on the unit-spaced test slice at index 3: the central
derivative is `(y[4] - y[2]) / 2`. -/
theorem c8_central_derivative_even_spacing_witness :
    GridSlice.central_derivative_at ⟨[0, 1, 2, 3, 4], [4, 3, 2, 1, 1]⟩ 3 =
      ([(4 : ℚ), 3, 2, 1, 1].getD 4 0 - [(4 : ℚ), 3, 2, 1, 1].getD 2 0) /
        (2 * 1) :=
  c8_central_derivative_even_spacing ⟨[0, 1, 2, 3, 4], [4, 3, 2, 1, 1]⟩ 1
    (by norm_num)
    (by
      intro j hj
      have hj5 : j + 1 < 5 := by simpa using hj
      have hj4 : j < 4 := by omega
      interval_cases j <;> norm_num)
    3 (by decide) (by decide)

/-- C5: `Commons::new` yields point and value sequences of the input's
length, index-aligned with the inputs (position `i` holds the `i`-th input's
point and value), and no finder installed. -/
theorem c5_commons_new_alignment {Point Finder : Type}
    (inputs : List (Input Point)) :
    (Commons.new inputs : Commons Point Finder).points.length = inputs.length ∧
    (Commons.new inputs : Commons Point Finder).values.length = inputs.length ∧
    (∀ i : ℕ,
      (Commons.new inputs : Commons Point Finder).points[i]? =
        (inputs[i]?).map Input.point ∧
      (Commons.new inputs : Commons Point Finder).values[i]? =
        (inputs[i]?).map Input.value) ∧
    (Commons.new inputs : Commons Point Finder).finder = none := by
  refine ⟨List.length_map _ _, List.length_map _ _, ?_, rfl⟩
  intro i
  constructor
  · show (inputs.map (fun i => i.point))[i]? = (inputs[i]?).map Input.point
    rw [List.getElem?_map]
  · show (inputs.map (fun i => i.value))[i]? = (inputs[i]?).map Input.value
    rw [List.getElem?_map]

/-- C10: `set_finder` changes only the finder field, which becomes `some` of
the given finder; points and values (hence their alignment and lengths) are
untouched. -/
theorem c10_set_finder_frame {Point Finder : Type} (c : Commons Point Finder)
    (f : Finder) :
    (c.set_finder f).points = c.points ∧
    (c.set_finder f).values = c.values ∧
    (c.set_finder f).finder = some f :=
  ⟨rfl, rfl, rfl⟩

lemma from_points_eq {Finder : Type} (table : List (List ℚ)) :
    (Commons.«from» table : Commons (List ℚ) Finder).points =
      table.map (fun row => row.dropLast) := by
  simp only [Commons.«from», Commons.new, split_2d, Input.stack, List.zip_map',
    List.map_map]
  rfl

lemma from_values_eq {Finder : Type} (table : List (List ℚ)) :
    (Commons.«from» table : Commons (List ℚ) Finder).values =
      table.map (fun row => row.getD (row.length - 1) 0) := by
  simp only [Commons.«from», Commons.new, split_2d, Input.stack, List.zip_map',
    List.map_map]
  rfl

/-- C9: converting an n-row table whose rows have D+1 entries yields a
`Commons` whose i-th point is the first D entries of row i and whose i-th
value is the last entry (position D) of row i. -/
theorem c9_from_table_rows {Finder : Type} (table : List (List ℚ)) (D : ℕ)
    (hrect : ∀ row ∈ table, row.length = D + 1) :
    (Commons.«from» table : Commons (List ℚ) Finder).points.length =
      table.length ∧
    (Commons.«from» table : Commons (List ℚ) Finder).values.length =
      table.length ∧
    ∀ i, i < table.length →
      (Commons.«from» table : Commons (List ℚ) Finder).points.getD i [] =
        (table.getD i []).take D ∧
      (Commons.«from» table : Commons (List ℚ) Finder).values.getD i 0 =
        (table.getD i []).getD D 0 := by
  rw [from_points_eq, from_values_eq]
  refine ⟨List.length_map _ _, List.length_map _ _, ?_⟩
  intro i hi
  have hrow : (table.getD i []).length = D + 1 :=
    hrect _ (getD_mem_of_lt hi)
  rw [List.getD_eq_getElem table _ hi] at hrow ⊢
  constructor
  · rw [List.getD_eq_getElem _ _ (by rw [List.length_map]; exact hi),
      List.getElem_map, List.dropLast_eq_take, hrow, Nat.add_sub_cancel]
  · rw [List.getD_eq_getElem _ _ (by rw [List.length_map]; exact hi),
      List.getElem_map, hrow, Nat.add_sub_cancel]

/-- Witness for C9 on the table [[1,2,3],[4,5,6]] with D = 2: points are the
two-entry prefixes and values the last column. -/
theorem c9_from_table_rows_witness :
    (Commons.«from» [[1, 2, 3], [4, 5, 6]] : Commons (List ℚ) Unit).points.length =
      [[(1 : ℚ), 2, 3], [4, 5, 6]].length ∧
    (Commons.«from» [[1, 2, 3], [4, 5, 6]] : Commons (List ℚ) Unit).values.length =
      [[(1 : ℚ), 2, 3], [4, 5, 6]].length ∧
    ∀ i, i < [[(1 : ℚ), 2, 3], [4, 5, 6]].length →
      (Commons.«from» [[1, 2, 3], [4, 5, 6]] : Commons (List ℚ) Unit).points.getD i [] =
        ([[(1 : ℚ), 2, 3], [4, 5, 6]].getD i []).take 2 ∧
      (Commons.«from» [[1, 2, 3], [4, 5, 6]] : Commons (List ℚ) Unit).values.getD i 0 =
        ([[(1 : ℚ), 2, 3], [4, 5, 6]].getD i []).getD 2 0 :=
  c9_from_table_rows [[1, 2, 3], [4, 5, 6]] 2 (by decide)

end Ndinterp

